import Mathlib

/-!
Verification development for the replus pattern-management library
(src/replus/__init__.py and src/replus/engine.py).

The embedding works over `Str := List Char`.  Python strings become
character lists, mutable state becomes explicit state passing, raised
exceptions become `Except` values, and the in-place `list.sort` performed
by `purge_overlaps` on its argument is modelled by returning the sorted
contents of the argument separately.
-/

namespace Replus

abbrev Str := List Char

/-! ## Overlap resolver (`Replus.purge_overlaps`)

The Python function receives a list of Match or Group objects and only
reads the attributes `_start`, `_end` and `length` (`start`, `end`,
`length` in engine.py).  The embedding is therefore generic over the
element type together with the three attribute projections. -/

/-- One span-bearing element as consumed by `purge_overlaps`: the three
attributes `_start`, `_end` and `length` read by the function.  They are
independent fields because the function reads them independently. -/
structure SpanItem where
  start : Nat
  stop : Nat
  length : Nat
deriving DecidableEq

/-- `matches.sort(key=lambda x: x._start)`: Python list.sort is a stable
sort by the start attribute. -/
def sortByStart {α : Type} (fs : α → Nat) (l : List α) : List α :=
  List.insertionSort (fun a b => fs a ≤ fs b) l

/-- The loop `for m in matches[1:]` of `purge_overlaps`.  The kept list
`purged` is represented by its last element `k` (`purged[-1]`) together
with the earlier elements in reverse order (`kept`), so that `append`,
`pop` and `append` after `pop` are the three head operations below. -/
def purgeLoop {α : Type} (fs fe fl : α → Nat) :
    α → List α → List α → α × List α
  | k, kept, [] => (k, kept)
  | k, kept, m :: ms =>
    if fs m ≥ fe k then
      -- m._start >= purged[-1]._end: purged.append(m)
      purgeLoop fs fe fl m (k :: kept) ms
    else if fe m ≥ fe k ∧ fl m > fl k then
      -- m._end >= purged[-1]._end and m.length > purged[-1].length:
      -- purged.pop(); purged.append(m)
      purgeLoop fs fe fl m kept ms
    else
      purgeLoop fs fe fl k kept ms

/-- `Replus.purge_overlaps`: sort by `_start`, return lists of length at
most one unchanged, otherwise run the left-to-right sweep.  The returned
value is the final kept list in start order. -/
def purge_overlaps {α : Type} (fs fe fl : α → Nat) (matchList : List α) : List α :=
  let sorted := sortByStart fs matchList
  if sorted.length ≤ 1 then sorted
  else
    match sorted with
    | [] => sorted
    | first :: rest =>
      let r := purgeLoop fs fe fl first [] rest
      (r.1 :: r.2).reverse

/-- The contents of the caller's argument list after `purge_overlaps`
returns: the first statement `matches.sort(key=lambda x: x._start)`
mutates the argument in place, so the caller is left with its elements
sorted by start. -/
def purge_overlaps_arg_after {α : Type} (fs : α → Nat) (l : List α) : List α :=
  sortByStart fs l

/-! Spec-side sweep for claim C1, written from the claim text: the first
element of the (sorted) input is kept; each subsequent element `m` is
appended when `m.start` is at least the end of the last kept element `k`;
otherwise it replaces `k` exactly when `m.end ≥ k.end` and
`m.length > k.length`, and is discarded otherwise. -/

/-- Claim-side sweep with `k` the last kept element so far. -/
def claimSweepAux {α : Type} (fs fe fl : α → Nat) : α → List α → List α
  | k, [] => [k]
  | k, m :: ms =>
    if fs m ≥ fe k then k :: claimSweepAux fs fe fl m ms
    else if fe m ≥ fe k ∧ fl m > fl k then claimSweepAux fs fe fl m ms
    else claimSweepAux fs fe fl k ms

/-- Claim-side description of the whole sweep over a start-sorted list. -/
def claimSweep {α : Type} (fs fe fl : α → Nat) : List α → List α
  | [] => []
  | first :: rest => claimSweepAux fs fe fl first rest

/-! ## Template compiler (`Replus._build_group` / `_build_pattern` / `_build_patterns`)

The placeholder-matching regex of the source,
`group_pattern = r"((?P<special>#|\?[:>!=]|\?[aimsxl]:|\?<[!=])?(?P<key>[\w_]+)(@(?P<index>\d+))?)"`
wrapped in doubled curly braces, is embedded as a character-level scanner.
Word characters are modelled as ASCII alphanumerics plus the underscore.
Curly braces are written with their escapes 7b/7d throughout. -/

/-- Word character of the key class of `group_pattern`. -/
def isWordChar (c : Char) : Bool := c.isAlphanum || c = '_'

/-- A parsed placeholder: the named fields `special`, `key` and `index`
of a match of `group_pattern` (the raw digits of `index` are kept so
that `group(1)` can be reconstructed exactly). -/
structure GroupMatch where
  special : Option Str
  key : Str
  idxRaw : Option Str
deriving DecidableEq

/-- `group_match.group(1)`: the full text between the braces. -/
def GroupMatch.whole (gm : GroupMatch) : Str :=
  (gm.special.getD []) ++ gm.key ++ (match gm.idxRaw with
    | some d => '@' :: d
    | none => [])

/-- Python `int` on a digit string. -/
def digitsToNat (ds : Str) : Nat :=
  ds.foldl (fun acc c => acc * 10 + (c.toNat - '0'.toNat)) 0

/-- `int(group_match.group("index")) if group_match.group("index") else 1`. -/
def GroupMatch.backrefIndex (gm : GroupMatch) : Nat :=
  match gm.idxRaw with
  | some d => digitsToNat d
  | none => 1

/-- The `special` alternation of `group_pattern`:
hash, question mark followed by one of colon/greater/bang/equals, an
inline-flag letter followed by colon, or a lookbehind marker.  Returns
the marker and the remaining characters.  The alternatives are mutually
exclusive on any input, so first-match order does not matter. -/
def specialMarkerAt : Str → Option (Str × Str)
  | '#' :: r => some (['#'], r)
  | '?' :: c :: r =>
    if c = ':' ∨ c = '>' ∨ c = '!' ∨ c = '=' then some (['?', c], r)
    else if c = 'a' ∨ c = 'i' ∨ c = 'm' ∨ c = 's' ∨ c = 'x' ∨ c = 'l' then
      match r with
      | ':' :: r2 => some (['?', c, ':'], r2)
      | _ => none
    else if c = '<' then
      match r with
      | c2 :: r2 => if c2 = '!' ∨ c2 = '=' then some (['?', '<', c2], r2) else none
      | _ => none
    else none
  | _ => none

/-- Attempt to match the body of `group_pattern` directly after the two
opening braces: optional special marker, a nonempty run of word
characters, an optional at-sign with digits, then the two closing
braces.  The greedy character classes cannot backtrack usefully (word
characters exclude the at-sign and the braces), and when a special
marker is consumed a retry without it necessarily fails because the
first character is then not a word character, so this deterministic
parse is exactly the regex's behaviour at a fixed position. -/
def placeholderBody (r : Str) : Option GroupMatch :=
  let sp := specialMarkerAt r
  let r1 := match sp with
    | some (_, rest) => rest
    | none => r
  let key := r1.takeWhile isWordChar
  let r2 := r1.dropWhile isWordChar
  if key = [] then none
  else
    match r2 with
    | '\x7d' :: '\x7d' :: _ => some ⟨sp.map Prod.fst, key, none⟩
    | '@' :: r3 =>
      let digs := r3.takeWhile Char.isDigit
      let r4 := r3.dropWhile Char.isDigit
      if digs = [] then none
      else
        match r4 with
        | '\x7d' :: '\x7d' :: _ => some ⟨sp.map Prod.fst, key, some digs⟩
        | _ => none
    | _ => none

/-- The first match of `group_pattern` in a string
(`regex.finditer(self.group_pattern, pattern)` is consumed only for its
first element): scan left to right for two opening braces followed by a
well-formed placeholder body. -/
def findGroupMatch : Str → Option GroupMatch
  | [] => none
  | c :: rest =>
    match c, rest with
    | '\x7b', '\x7b' :: r =>
      (match placeholderBody r with
       | some gm => some gm
       | none => findGroupMatch rest)
    | _, _ => findGroupMatch rest

/-- Python `s.replace(pat, repl, 1)`: replace the first occurrence.
All patterns passed by the compiler are braced placeholders, hence
nonempty. -/
def replaceFirst : Str → Str → Str → Str
  | [], pat, repl => if pat.isEmpty then repl else []
  | c :: rest, pat, repl =>
    if pat ≠ [] ∧ pat.isPrefixOf (c :: rest) then repl ++ (c :: rest).drop pat.length
    else c :: replaceFirst rest pat repl

/-- Python `s.replace(pat, repl)`: replace all non-overlapping
occurrences, scanning left to right.  Only used with braced
placeholders, hence nonempty patterns.  The loop consumes at least one
character per step, so the string length is used as structural fuel;
the zero-fuel branch is unreachable when started with the length. -/
def replaceAllGo (pat repl : Str) : Nat → Str → Str
  | _, [] => if pat.isEmpty then repl else []
  | 0, s => s
  | fuel + 1, c :: rest =>
    if pat ≠ [] ∧ pat.isPrefixOf (c :: rest) then
      repl ++ replaceAllGo pat repl fuel ((c :: rest).drop pat.length)
    else c :: replaceAllGo pat repl fuel rest

def replaceAll (s pat repl : Str) : Str := replaceAllGo pat repl s.length s

/-- `"|".join(alts)`. -/
def pipeTogether (alts : List Str) : Str := List.intercalate ['|'] alts

/-- The doubled-brace literal around a placeholder text. -/
def braced (x : Str) : Str := '\x7b' :: '\x7b' :: (x ++ ['\x7d', '\x7d'])

/-- The registered capture name `key_count`. -/
def groupName (key : Str) (n : Nat) : Str := key ++ '_' :: Nat.toDigits 10 n

/-- A named capture group `(?P<name>body)`. -/
def namedGroup (name body : Str) : Str :=
  "(?P<".toList ++ name ++ '>' :: (body ++ [')'])

/-- An engine backreference `(?P=name)`. -/
def backrefStr (name : Str) : Str := "(?P=".toList ++ name ++ [')']

/-- The pattern source table `patterns_src`, an association list because
the Python dict has unique keys. -/
abbrev SrcTable := List (Str × List Str)

/-- `patterns_src.get(key)`. -/
def srcGet (src : SrcTable) (k : Str) : Option (List Str) :=
  (src.find? (fun p => p.1 == k)).map Prod.snd

/-- The per-template occurrence counter `group_counter`; absent keys
count zero, as in `collections.Counter`. -/
abbrev CounterT := List (Str × Nat)

def ctrGet (c : CounterT) (k : Str) : Nat :=
  ((c.find? (fun p => p.1 == k)).map Prod.snd).getD 0

def ctrInc : CounterT → Str → CounterT
  | [], k => [(k, 1)]
  | (k2, v) :: rest, k =>
    if k2 == k then (k2, v + 1) :: rest else (k2, v) :: ctrInc rest k

/-- The mutable compiler state touched by `_build_group`: the occurrence
counter and the registered-group-name list `all_groups[template]`. -/
structure BuildState where
  counter : CounterT
  groups : List Str
deriving DecidableEq

/-- The exceptions `_build_group` can raise: the backreference
assertion, the repeated-special exception, the could-not-build
assertion of the prefixed-key rewrite, `UnknownTemplateGroup`, and fuel
exhaustion of the embedding (the Python recursion has no bound). -/
inductive BuildErr
  | backrefAssertion (key : Str)
  | specialMissing (special key : Str)
  | couldNotBuild (key : Str)
  | unknownTemplateGroup (key : Str)
  | outOfFuel
deriving DecidableEq

/-- The special-marker source-table prefixes tried, in source order. -/
def skList : List Str :=
  (["?:", "?>", "?!", "?=", "?<=", "?<!", "?a:", "?i:", "?m:", "?s:", "?x:", "?l:"] :
    List String).map String.toList

/-- The loop `for sk in [...]` of `_build_group` for a plain key absent
from the source table: the first marker-prefixed key present rewrites
every occurrence of the placeholder; the rewrite must change the
pattern (assert), and if no prefixed key exists the
`UnknownTemplateGroup` exception is raised. -/
def skRewrite : List Str → Str → Str → SrcTable → BuildState →
    Except BuildErr (Str × BuildState)
  | [], key, _, _, _ => .error (.unknownTemplateGroup key)
  | sk :: rest, key, pattern, src, st =>
    match srcGet src (sk ++ key) with
    | some alts =>
      let np := replaceAll pattern (braced key) ('(' :: (sk ++ pipeTogether alts ++ [')']))
      if np ≠ pattern then .ok (np, st) else .error (.couldNotBuild key)
    | none => skRewrite rest key pattern src st

/-- `Replus._build_group`. -/
def build_group (gm : GroupMatch) (pattern : Str) (src : SrcTable) (st : BuildState) :
    Except BuildErr (Str × BuildState) :=
  let group_key := gm.key
  match srcGet src group_key with
  | some alts =>
    let group_count := ctrGet st.counter group_key
    match gm.special with
    | none =>
      let name := groupName group_key group_count
      .ok (replaceFirst pattern (braced group_key) (namedGroup name (pipeTogether alts)),
           ⟨ctrInc st.counter group_key, st.groups ++ [name]⟩)
    | some sp =>
      if sp = ['#'] then
        let n := gm.backrefIndex
        if group_count ≥ n then
          .ok (replaceFirst pattern (braced gm.whole)
                (backrefStr (groupName group_key (group_count - n))), st)
        else .error (.backrefAssertion group_key)
      else
        .ok (replaceFirst pattern (braced (sp ++ group_key))
              ('(' :: (sp ++ pipeTogether alts ++ [')'])),
             ⟨ctrInc st.counter group_key, st.groups⟩)
  | none =>
    match gm.special with
    | some sp => .error (.specialMissing sp group_key)
    | none => skRewrite skList group_key pattern src st

/-- A whitespace character of the regex class backslash-s. -/
def isSpaceChar (c : Char) : Bool :=
  c = ' ' ∨ c = '\t' ∨ c = '\n' ∨ c = '\r' ∨ c = '\x0b' ∨ c = '\x0c'

/-- Whether a string starts with a whitespace character. -/
def headIsSpace : Str → Bool
  | r :: _ => isSpaceChar r
  | [] => false

/-- `regex.sub(r" +|\\\s+", "(" + noise + ")", pattern)`: every maximal
run of spaces, and every backslash followed by a run of whitespace, is
replaced by the parenthesized noise fragment. -/
def wsSubGo (noise : Str) : Nat → Str → Str
  | _, [] => []
  | 0, s => s
  | fuel + 1, c :: rest =>
    if c = ' ' then
      ('(' :: (noise ++ [')'])) ++ wsSubGo noise fuel (rest.dropWhile (fun x => x = ' '))
    else if c = '\\' ∧ headIsSpace rest then
      ('(' :: (noise ++ [')'])) ++ wsSubGo noise fuel (rest.dropWhile isSpaceChar)
    else c :: wsSubGo noise fuel rest

def wsSub (noise : Str) (s : Str) : Str := wsSubGo noise s.length s

/-- `Replus._build_pattern`: expand the first placeholder and recurse
until none remains, then apply the optional whitespace-noise rewrite.
The Python recursion has no structural bound (source fragments may
themselves contain placeholders), so the embedding takes explicit
fuel. -/
def build_pattern (src : SrcTable) (ws : Option Str) :
    Nat → Str → BuildState → Except BuildErr (Str × BuildState)
  | 0, _, _ => .error .outOfFuel
  | fuel + 1, pattern, st =>
    match findGroupMatch pattern with
    | some gm =>
      match build_group gm pattern src st with
      | .ok (p2, st2) => build_pattern src ws fuel p2 st2
      | .error e => .error e
    | none =>
      .ok ((match ws with
        | some noise => wsSub noise pattern
        | none => pattern), st)

/-- The cause wrapped inside a `PatternBuildException`: either an
expansion error from `_build_pattern` or a failure of the engine
`regex.compile` call (the engine itself is an external collaborator and
is abstracted by a predicate on pattern strings). -/
inductive BuildCause
  | fromExpand (e : BuildErr)
  | fromCompile
deriving DecidableEq

/-- `PatternBuildException`, naming the owning pattern-type key and
preserving the underlying cause. -/
inductive FatalErr
  | patternBuild (key : Str) (cause : BuildCause)
deriving DecidableEq

/-- `all_groups`, the per-template registered-name map (a defaultdict
keyed by template string). -/
abbrev AllGroups := List (Str × List Str)

def agGet (ag : AllGroups) (k : Str) : List Str :=
  ((ag.find? (fun p => p.1 == k)).map Prod.snd).getD []

def agSet : AllGroups → Str → List Str → AllGroups
  | [], k, v => [(k, v)]
  | (k2, v2) :: rest, k, v =>
    if k2 == k then (k2, v) :: rest else (k2, v2) :: agSet rest k v

/-- One compiled-registry entry `(key, pattern, template)`; the engine
pattern object is represented by its pattern string. -/
abbrev RegistryEntry := Str × Str × Str

/-- The inner loop of `_build_patterns` over the templates of one
pattern-type `key`: reset the counter, expand, compile with the engine
(abstracted by `compileOk`), and wrap any failure in a
`PatternBuildException` naming `key`. -/
def build_key (compileOk : Str → Bool) (src : SrcTable) (ws : Option Str) (fuel : Nat)
    (key : Str) : List Str → AllGroups → Except FatalErr (List RegistryEntry × AllGroups)
  | [], ag => .ok ([], ag)
  | t :: ts, ag =>
    match build_pattern src ws fuel t ⟨[], agGet ag t⟩ with
    | .error e => .error (.patternBuild key (.fromExpand e))
    | .ok (p, st) =>
      let ag2 := agSet ag t st.groups
      if compileOk p then
        match build_key compileOk src ws fuel key ts ag2 with
        | .error e => .error e
        | .ok (more, ag3) => .ok ((key, p, t) :: more, ag3)
      else .error (.patternBuild key .fromCompile)

/-- `Replus._build_patterns`: drive `_build_pattern` over every
(pattern-type, template) pair in declaration order, aborting with the
first wrapped failure. -/
def build_patterns (compileOk : Str → Bool) (src : SrcTable) (ws : Option Str) (fuel : Nat) :
    List (Str × List Str) → AllGroups → Except FatalErr (List RegistryEntry × AllGroups)
  | [], ag => .ok ([], ag)
  | (key, ts) :: rest, ag =>
    match build_key compileOk src ws fuel key ts ag with
    | .error e => .error e
    | .ok (entries, ag2) =>
      match build_patterns compileOk src ws fuel rest ag2 with
      | .error e => .error e
      | .ok (more, ag3) => .ok (entries ++ more, ag3)

/-! ## Match/Group result model (`Match`, `Group`, `AbstractMatch`)

One raw engine match is modelled by its subject bounds and the table of
named groups the engine reports: for each name, the list of
per-occurrence spans (`regex`'s `m.spans(name)`).  A name absent from
the table corresponds to the engine raising `IndexError`; a name mapped
to the empty list corresponds to a group that exists in the pattern but
did not capture (`m.group(name) is None`, `m.spans(name) == []`). -/

/-- An engine match (the external `regex.regex.Match` collaborator). -/
structure EngineMatch where
  mstart : Nat
  mend : Nat
  named : List (Str × List (Nat × Nat))
deriving DecidableEq

/-- `m.spans(name)` with `none` for the `IndexError` case. -/
def emSpans (em : EngineMatch) (name : Str) : Option (List (Nat × Nat)) :=
  (em.named.find? (fun p => p.1 == name)).map Prod.snd

/-- A `Match` object: pattern-type key, wrapped engine match, and the
registered-group-name list of its template (`all_group_names`).  The
derived attributes `_start` and `_end` are the engine match bounds. -/
structure RMatch where
  mtype : Str
  em : EngineMatch
  all_group_names : List Str
deriving DecidableEq

/-- A `Group` object as built inside `groups()`: the shared engine
match, the resolved engine group name, the root Match's registered-name
list, the repetition index, and the start and end offsets, which
`Group.__init__` reads as `match.spans(group_name)[rep_index]` - the
exact span element the `groups()` loop enumerated when constructing the
object. -/
structure RGroup where
  em : EngineMatch
  name : Str
  rootNames : List Str
  rep_index : Nat
  gstart : Nat
  gstop : Nat
deriving DecidableEq

/-- `Group.length = end - start`. -/
def RGroup.glength (g : RGroup) : Nat := g.gstop - g.gstart

/-- The inner loop `for j, (start, end) in enumerate(match.spans(group_i))`
of `groups()`: wrap each span contained in the `lo..hi` window as a
`Group` with its enumeration index as repetition index. -/
def spanGroups (em : EngineMatch) (name : Str) (rootNames : List Str)
    (lo hi : Nat) : Nat → List (Nat × Nat) → List RGroup
  | _, [] => []
  | j, (s, e) :: rest =>
    (if lo ≤ s ∧ e ≤ hi then [⟨em, name, rootNames, j, s, e⟩] else []) ++
      spanGroups em name rootNames lo hi (j + 1) rest

/-- `Match.groups` without a query: one pass per registered name; an
engine `IndexError` (name not in the pattern) skips that name, a
non-capturing group contributes nothing. -/
def collectPlain (em : EngineMatch) (rootNames : List Str) (lo hi : Nat) :
    List Str → List RGroup
  | [] => []
  | name :: rest =>
    (match emSpans em name with
     | none => []
     | some spans => spanGroups em name rootNames lo hi 0 spans) ++
      collectPlain em rootNames lo hi rest

/-- `Match.groups` with a query `q`: iterate the derived names `q_0`,
`q_1`, ... until the engine raises `IndexError`.  The engine reports
finitely many names, so the loop stops within `named.length + 2`
iterations; the fuel is passed explicitly and the zero-fuel branch is
unreachable when started with that bound. -/
def collectIndexed (em : EngineMatch) (rootNames : List Str) (lo hi : Nat) (q : Str) :
    Nat → Nat → List RGroup
  | 0, _ => []
  | fuel + 1, i =>
    match emSpans em (groupName q i) with
    | none => []
    | some spans =>
      spanGroups em (groupName q i) rootNames lo hi 0 spans ++
        collectIndexed em rootNames lo hi q fuel (i + 1)

/-- `Match.groups(group_query, root)`. -/
def RMatch.groupsFn (m : RMatch) (query : Option Str) (root : Bool) : List RGroup :=
  let collected := match query with
    | none => collectPlain m.em m.all_group_names m.em.mstart m.em.mend m.all_group_names
    | some q =>
      collectIndexed m.em m.all_group_names m.em.mstart m.em.mend q
        (m.em.named.length + 2) 0
  let sorted := sortByStart RGroup.gstart collected
  if root then purge_overlaps RGroup.gstart RGroup.gstop RGroup.glength sorted else sorted

/-- `AbstractMatch.group` on a `Match`: first element of
`groups(group_name)` or `None`. -/
def RMatch.groupFn (m : RMatch) (name : Str) : Option RGroup :=
  (m.groupsFn (some name) false).head?

/-- Runtime errors of the result model: the `NoSuchGroup` exception of
the library, plus the uncaught `ValueError` of `list.index` inside
`Group.groups` and the engine's own index errors. -/
inductive RunErr
  | noSuchGroup (name : Str)
  | valueError
  | indexError
deriving DecidableEq

/-- `list.index` of Python as used by `is_next`: position of the first
occurrence, or an error when absent. -/
def firstIdx : List Str → Str → Option Nat
  | [], _ => none
  | y :: rest, x => if y == x then some 0 else (firstIdx rest x).map (· + 1)

/-- `is_next(g1, g2)` inside `Group.groups`: compares the first-occurrence
positions of the two names in the root's registered-name list,
propagating the `ValueError` Python raises when a name is absent. -/
def isNextE (all : List Str) (g1 g2 : Str) : Except RunErr Bool :=
  match firstIdx all g1, firstIdx all g2 with
  | some i1, some i2 => .ok (decide (i2 < i1))
  | _, _ => .error .valueError

/-- The body of one name iteration of `Group.groups`: the group's own
name is skipped; otherwise an engine `IndexError` contributes nothing
for this name, a captured group passes through `is_next` (which can
raise) and, when it is a later name, contributes its contained spans. -/
def gContribution (em : EngineMatch) (rootNames : List Str) (selfName : Str)
    (lo hi : Nat) (name : Str) : Except RunErr (List RGroup) :=
  if name = selfName then .ok []
  else
    match emSpans em name with
    | none => .ok []
    | some spans =>
      if spans = [] then .ok []
      else
        match isNextE rootNames name selfName with
        | .error e => .error e
        | .ok b => .ok (if b then spanGroups em name rootNames lo hi 0 spans else [])

/-- `Group.groups` without a query: one pass per registered name. -/
def collectPlainG (em : EngineMatch) (rootNames : List Str) (selfName : Str)
    (lo hi : Nat) : List Str → Except RunErr (List RGroup)
  | [] => .ok []
  | name :: rest =>
    match gContribution em rootNames selfName lo hi name with
    | .error e => .error e
    | .ok here =>
      match collectPlainG em rootNames selfName lo hi rest with
      | .error e => .error e
      | .ok more => .ok (here ++ more)

/-- `Group.groups` with a query: iterate `q_0`, `q_1`, ... until the
engine raises `IndexError`; an iteration whose derived name equals the
group's own name performs no lookup and continues.  Same fuel
convention as `collectIndexed`. -/
def collectIndexedG (em : EngineMatch) (rootNames : List Str) (selfName : Str)
    (lo hi : Nat) (q : Str) : Nat → Nat → Except RunErr (List RGroup)
  | 0, _ => .ok []
  | fuel + 1, i =>
    let name := groupName q i
    if name = selfName then collectIndexedG em rootNames selfName lo hi q fuel (i + 1)
    else
      match emSpans em name with
      | none => .ok []
      | some spans =>
        match (if spans = [] then Except.ok ([] : List RGroup)
               else match isNextE rootNames name selfName with
                 | .error e => .error e
                 | .ok b => .ok (if b then spanGroups em name rootNames lo hi 0 spans else [])) with
        | .error e => .error e
        | .ok here =>
          match collectIndexedG em rootNames selfName lo hi q fuel (i + 1) with
          | .error e => .error e
          | .ok more => .ok (here ++ more)

/-- `Group.groups(group_query, root)`. -/
def RGroup.groupsFn (g : RGroup) (query : Option Str) (root : Bool) :
    Except RunErr (List RGroup) :=
  match (match query with
    | none => collectPlainG g.em g.rootNames g.name g.gstart g.gstop g.rootNames
    | some q =>
      collectIndexedG g.em g.rootNames g.name g.gstart g.gstop q
        (g.em.named.length + 2) 0) with
  | .error e => .error e
  | .ok collected =>
    let sorted := sortByStart RGroup.gstart collected
    .ok (if root then purge_overlaps RGroup.gstart RGroup.gstop RGroup.glength sorted
         else sorted)

/-- `AbstractMatch.group` on a `Group`. -/
def RGroup.groupFn (g : RGroup) (name : Str) : Except RunErr (Option RGroup) :=
  match g.groupsFn (some name) false with
  | .error e => .error e
  | .ok l => .ok l.head?

/-- `match.spans(self.name)[rep_index]` of `AbstractMatch.span` for a
`Group` receiver with no group name. -/
def RGroup.spanSelf (g : RGroup) (rep : Nat) : Except RunErr (Nat × Nat) :=
  match emSpans g.em g.name with
  | none => .error .indexError
  | some spans =>
    match spans.get? rep with
    | none => .error .indexError
    | some sp => .ok sp

/-- `match.starts(self.name)[rep_index]`. -/
def RGroup.startSelf (g : RGroup) (rep : Nat) : Except RunErr Nat :=
  match emSpans g.em g.name with
  | none => .error .indexError
  | some spans =>
    match (spans.map Prod.fst).get? rep with
    | none => .error .indexError
    | some s => .ok s

/-- `match.ends(self.name)[rep_index]`. -/
def RGroup.endSelf (g : RGroup) (rep : Nat) : Except RunErr Nat :=
  match emSpans g.em g.name with
  | none => .error .indexError
  | some spans =>
    match (spans.map Prod.snd).get? rep with
    | none => .error .indexError
    | some e => .ok e

/-- `AbstractMatch.span` on a `Match`: with a group name, the first
resolved group's span at the repetition index, or the `NoSuchGroup`
exception when the name resolves to no group; without, the match's own
span.  The default repetition index of a `Match` receiver is zero. -/
def RMatch.spanFn (m : RMatch) (gname : Option Str) (rep : Option Nat) :
    Except RunErr (Nat × Nat) :=
  let rep := rep.getD 0
  match gname with
  | none => .ok (m.em.mstart, m.em.mend)
  | some name =>
    match m.groupFn name with
    | some g => g.spanSelf rep
    | none => .error (.noSuchGroup name)

/-- `AbstractMatch.start` on a `Match`. -/
def RMatch.startFn (m : RMatch) (gname : Option Str) (rep : Option Nat) :
    Except RunErr Nat :=
  let rep := rep.getD 0
  match gname with
  | none => .ok m.em.mstart
  | some name =>
    match m.groupFn name with
    | some g => g.startSelf rep
    | none => .error (.noSuchGroup name)

/-- `AbstractMatch.end` on a `Match`. -/
def RMatch.endFn (m : RMatch) (gname : Option Str) (rep : Option Nat) :
    Except RunErr Nat :=
  let rep := rep.getD 0
  match gname with
  | none => .ok m.em.mend
  | some name =>
    match m.groupFn name with
    | some g => g.endSelf rep
    | none => .error (.noSuchGroup name)

/-- `AbstractMatch.span` on a `Group` receiver: the default repetition
index is the group's own, a group name resolves through `Group.group`
(whose `ValueError` propagates), and an unresolved name signals
`NoSuchGroup`. -/
def RGroup.spanFn (g : RGroup) (gname : Option Str) (rep : Option Nat) :
    Except RunErr (Nat × Nat) :=
  let rep := rep.getD g.rep_index
  match gname with
  | none => g.spanSelf rep
  | some name =>
    match g.groupFn name with
    | .error e => .error e
    | .ok (some g2) => g2.spanSelf rep
    | .ok none => .error (.noSuchGroup name)

/-- `AbstractMatch.start` on a `Group` receiver. -/
def RGroup.startFn (g : RGroup) (gname : Option Str) (rep : Option Nat) :
    Except RunErr Nat :=
  let rep := rep.getD g.rep_index
  match gname with
  | none => g.startSelf rep
  | some name =>
    match g.groupFn name with
    | .error e => .error e
    | .ok (some g2) => g2.startSelf rep
    | .ok none => .error (.noSuchGroup name)

/-- `AbstractMatch.end` on a `Group` receiver. -/
def RGroup.endFn (g : RGroup) (gname : Option Str) (rep : Option Nat) :
    Except RunErr Nat :=
  let rep := rep.getD g.rep_index
  match gname with
  | none => g.endSelf rep
  | some name =>
    match g.groupFn name with
    | .error e => .error e
    | .ok (some g2) => g2.endSelf rep
    | .ok none => .error (.noSuchGroup name)

/-! ## Concrete instances used by the claim theorems and witnesses -/

/-- Source table with the single key `abg`. -/
def c2Src : SrcTable := [("abg".toList, ["alpha".toList, "beta".toList, "gamma".toList])]

/-- The backreference template of the spec's example (braces escaped). -/
def c2Template : Str :=
  "\x7b\x7babg\x7d\x7d \x7b\x7babg\x7d\x7d \x7b\x7b#abg\x7d\x7d \x7b\x7b#abg@2\x7d\x7d".toList

/-- Its expected compilation. -/
def c2Compiled : Str :=
  "(?P<abg_0>alpha|beta|gamma) (?P<abg_1>alpha|beta|gamma) (?P=abg_1) (?P=abg_0)".toList

/-- Source table for the special-marker example. -/
def c3Src : SrcTable := [("spam".toList, ["spam".toList]), ("eggs".toList, ["eggs".toList])]

/-- A template using a non-capturing and an atomic special marker. -/
def c3Template : Str :=
  "Here is some \x7b\x7b?:spam\x7d\x7d and some \x7b\x7b?>eggs\x7d\x7d".toList

/-- Source table whose only key carries the implicit non-capturing
marker. -/
def c4Src : SrcTable := [("?:number".toList, ["\\d".toList])]

/-- The plain-placeholder template of the spec's example. -/
def c4Template : Str := "num: \x7b\x7bnumber\x7d\x7d.".toList

/-- A concrete match over the date pattern shape: registered name
`date_0` captured at span 9..25. -/
def c5Match : RMatch :=
  ⟨"date".toList, ⟨9, 25, [("date_0".toList, [(9, 25)])]⟩, ["date_0".toList]⟩

/-- A concrete engine match that captured the single group `key_0` at
span 2..5. -/
def c10Em : EngineMatch := ⟨0, 9, [("key_0".toList, [(2, 5)])]⟩

/-- A concrete match whose registered-name list holds the full name
`key_0` and whose engine match is `c10Em`. -/
def c10Match : RMatch := ⟨"t".toList, c10Em, ["key_0".toList]⟩

/-- The group `key_0` of `c10Em`, as `groups()` constructs it. -/
def c10Group : RGroup := ⟨c10Em, "key_0".toList, ["key_0".toList], 0, 2, 5⟩

/-- A concrete engine match used by the tree-navigation witnesses: the
outer group `a_0` spans 0..10 and the inner group `b_0` spans 2..5. -/
def c8Em : EngineMatch :=
  ⟨0, 12, [("a_0".toList, [(0, 10)]), ("b_0".toList, [(2, 5)])]⟩

/-- The match wrapping `c8Em` with names registered in order. -/
def c8Match : RMatch := ⟨"t".toList, c8Em, ["a_0".toList, "b_0".toList]⟩

/-- The outer group `a_0` of `c8Em` as constructed by `groups()`. -/
def c8Group : RGroup := ⟨c8Em, "a_0".toList, ["a_0".toList, "b_0".toList], 0, 0, 10⟩

/-! ## Theorems -/


theorem purgeLoop_reverse {α : Type} (fs fe fl : α → Nat) :
    ∀ (ms : List α) (k : α) (kept : List α),
      ((purgeLoop fs fe fl k kept ms).1 :: (purgeLoop fs fe fl k kept ms).2).reverse
        = kept.reverse ++ claimSweepAux fs fe fl k ms := by
  intro ms
  induction ms with
  | nil => intro k kept; simp [purgeLoop, claimSweepAux]
  | cons m ms ih =>
    intro k kept
    by_cases h1 : fs m ≥ fe k
    · simp [purgeLoop, claimSweepAux, h1, ih]
    · by_cases h2 : fe m ≥ fe k ∧ fl m > fl k
      · simp [purgeLoop, claimSweepAux, h1, h2, ih]
      · simp [purgeLoop, claimSweepAux, h1, h2, ih]

theorem sweep_of_sorted {α : Type} (fs fe fl : α → Nat) : ∀ (s : List α),
    (if s.length ≤ 1 then s
     else match s with
       | [] => s
       | first :: rest =>
         ((purgeLoop fs fe fl first [] rest).1 :: (purgeLoop fs fe fl first [] rest).2).reverse)
    = claimSweep fs fe fl s := by
  intro s
  match s with
  | [] => simp [claimSweep]
  | [a] => simp [claimSweep, claimSweepAux]
  | a :: b :: bs =>
    have h : ¬ ((a :: b :: bs).length ≤ 1) := by simp
    rw [if_neg h]
    show ((purgeLoop fs fe fl a [] (b :: bs)).1 :: (purgeLoop fs fe fl a [] (b :: bs)).2).reverse = _
    rw [purgeLoop_reverse]
    simp [claimSweep]

theorem purge_eq_claimSweep {α : Type} (fs fe fl : α → Nat) (l : List α) :
    purge_overlaps fs fe fl l = claimSweep fs fe fl (sortByStart fs l) :=
  sweep_of_sorted fs fe fl (sortByStart fs l)

theorem purgeLoop_subset {α : Type} (fs fe fl : α → Nat) :
    ∀ (ms : List α) (k : α) (kept : List α) (x : α),
      x ∈ (purgeLoop fs fe fl k kept ms).1 :: (purgeLoop fs fe fl k kept ms).2 →
      x ∈ k :: (kept ++ ms) := by
  intro ms
  induction ms with
  | nil => intro k kept x h; simpa [purgeLoop] using h
  | cons m ms ih =>
    intro k kept x h
    by_cases h1 : fs m ≥ fe k
    · rw [purgeLoop] at h
      rw [if_pos h1] at h
      have := ih m (k :: kept) x h
      simp only [List.mem_cons, List.mem_append] at this ⊢
      tauto
    · by_cases h2 : fe m ≥ fe k ∧ fl m > fl k
      · rw [purgeLoop, if_neg h1, if_pos h2] at h
        have := ih m kept x h
        simp only [List.mem_cons, List.mem_append] at this ⊢
        tauto
      · rw [purgeLoop, if_neg h1, if_neg h2] at h
        have := ih k kept x h
        simp only [List.mem_cons, List.mem_append] at this ⊢
        tauto

theorem purgeLoop_pairwise {α : Type} (fs fe fl : α → Nat) :
    ∀ (ms : List α) (k : α) (kept : List α),
      List.Pairwise (fun a b => fe b ≤ fs a ∧ fs b ≤ fs a) (k :: kept) →
      (∀ m ∈ ms, fs k ≤ fs m) →
      List.Pairwise (fun a b => fs a ≤ fs b) ms →
      List.Pairwise (fun a b => fe b ≤ fs a ∧ fs b ≤ fs a)
        ((purgeLoop fs fe fl k kept ms).1 :: (purgeLoop fs fe fl k kept ms).2) := by
  intro ms
  induction ms with
  | nil => intro k kept hpw _ _; simpa [purgeLoop] using hpw
  | cons m ms ih =>
    intro k kept hpw hpend hsort
    rw [List.pairwise_cons] at hsort
    have hkm : fs k ≤ fs m := hpend m (List.mem_cons_self m ms)
    by_cases h1 : fs m ≥ fe k
    · rw [purgeLoop, if_pos h1]
      apply ih m (k :: kept)
      · rw [List.pairwise_cons]
        constructor
        · intro x hx
          rcases List.mem_cons.mp hx with rfl | hx2
          · exact ⟨h1, hkm⟩
          · have := (List.pairwise_cons.mp hpw).1 x hx2
            exact ⟨Nat.le_trans this.1 hkm, Nat.le_trans this.2 hkm⟩
        · exact hpw
      · exact hsort.1
      · exact hsort.2
    · by_cases h2 : fe m ≥ fe k ∧ fl m > fl k
      · rw [purgeLoop, if_neg h1, if_pos h2]
        apply ih m kept
        · rw [List.pairwise_cons]
          constructor
          · intro x hx
            have := (List.pairwise_cons.mp hpw).1 x hx
            exact ⟨Nat.le_trans this.1 hkm, Nat.le_trans this.2 hkm⟩
          · exact (List.pairwise_cons.mp hpw).2
        · exact hsort.1
        · exact hsort.2
      · rw [purgeLoop, if_neg h1, if_neg h2]
        apply ih k kept hpw
        · intro m2 hm2
          exact Nat.le_trans hkm (hsort.1 m2 hm2)
        · exact hsort.2

theorem sortByStart_perm {α : Type} (fs : α → Nat) (l : List α) :
    List.Perm (sortByStart fs l) l :=
  List.perm_insertionSort _ l

theorem sortByStart_sorted {α : Type} (fs : α → Nat) (l : List α) :
    List.Pairwise (fun a b => fs a ≤ fs b) (sortByStart fs l) := by
  haveI : IsTotal α (fun a b => fs a ≤ fs b) := ⟨fun a b => Nat.le_total _ _⟩
  haveI : IsTrans α (fun a b => fs a ≤ fs b) := ⟨fun _ _ _ hab hbc => Nat.le_trans hab hbc⟩
  exact List.sorted_insertionSort _ l

theorem purge_overlaps_sound {α : Type} (fs fe fl : α → Nat) (l : List α) :
    (∀ x ∈ purge_overlaps fs fe fl l, x ∈ l)
    ∧ List.Pairwise (fun a b => fe a ≤ fs b ∧ fs a ≤ fs b) (purge_overlaps fs fe fl l) := by
  have hperm := sortByStart_perm fs l
  have hsorted := sortByStart_sorted fs l
  have hrepr : purge_overlaps fs fe fl l =
      (if (sortByStart fs l).length ≤ 1 then sortByStart fs l
       else match sortByStart fs l with
         | [] => sortByStart fs l
         | first :: rest =>
           ((purgeLoop fs fe fl first [] rest).1 ::
             (purgeLoop fs fe fl first [] rest).2).reverse) := rfl
  rcases hs : sortByStart fs l with _ | ⟨a, rest⟩
  · rw [hs] at hrepr
    simp at hrepr
    simp [hrepr]
  · rcases rest with _ | ⟨b, bs⟩
    · rw [hs] at hrepr
      simp at hrepr
      rw [hs] at hperm
      constructor
      · intro x hx
        rw [hrepr] at hx
        exact hperm.mem_iff.mp hx
      · rw [hrepr]
        simp
    · rw [hs] at hrepr hperm hsorted
      have hlen : ¬ ((a :: b :: bs).length ≤ 1) := by simp
      rw [if_neg hlen] at hrepr
      rw [List.pairwise_cons] at hsorted
      constructor
      · intro x hx
        rw [hrepr] at hx
        rw [List.mem_reverse] at hx
        have := purgeLoop_subset fs fe fl (b :: bs) a [] x hx
        apply hperm.mem_iff.mp
        simpa using this
      · rw [hrepr]
        rw [List.pairwise_reverse]
        exact purgeLoop_pairwise fs fe fl (b :: bs) a [] (by simp) hsorted.1 hsorted.2


/-- C1: `purge_overlaps` performs a single left-to-right sweep over the
input sorted by start offset — the first element is kept; a subsequent
element `m` is appended when its start is at least the end of the last
kept element `k`, replaces `k` exactly when its end is at least the end
of `k` and its length exceeds the length of `k`, and is discarded
otherwise — and on span-bearing inputs with spans (0,5), (3,10),
(12,15) it returns the elements with spans (3,10) and (12,15). -/
theorem claim_C1 :
    (∀ {α : Type} (fs fe fl : α → Nat) (l : List α),
        purge_overlaps fs fe fl l = claimSweep fs fe fl (sortByStart fs l))
    ∧ purge_overlaps SpanItem.start SpanItem.stop SpanItem.length
        [⟨0, 5, 5⟩, ⟨3, 10, 7⟩, ⟨12, 15, 3⟩] = [⟨3, 10, 7⟩, ⟨12, 15, 3⟩] :=
  ⟨fun fs fe fl l => purge_eq_claimSweep fs fe fl l, by decide⟩

/-- C7: for every input list, the list returned by `purge_overlaps` is
a subset of the input elements, its spans are pairwise non-overlapping
(a later kept element starts no earlier than an earlier one ends), and
it is sorted by start offset. -/
theorem claim_C7 : ∀ {α : Type} (fs fe fl : α → Nat) (l : List α),
    (∀ x ∈ purge_overlaps fs fe fl l, x ∈ l)
    ∧ List.Pairwise (fun a b => fe a ≤ fs b ∧ fs a ≤ fs b) (purge_overlaps fs fe fl l) :=
  fun fs fe fl l => purge_overlaps_sound fs fe fl l

/-- Witness for C7 at a concrete input: the element kept by the sweep is
an element of the input list. -/
theorem claim_C7_witness :
    (⟨3, 10, 7⟩ : SpanItem) ∈ [(⟨0, 5, 5⟩ : SpanItem), ⟨3, 10, 7⟩, ⟨12, 15, 3⟩] :=
  (claim_C7 SpanItem.start SpanItem.stop SpanItem.length
      [⟨0, 5, 5⟩, ⟨3, 10, 7⟩, ⟨12, 15, 3⟩]).1 ⟨3, 10, 7⟩ (by decide)

/-- C9 fails as stated: `purge_overlaps` begins with
`matches.sort(key=lambda x: x._start)`, an in-place sort of the
caller's argument, so an unsorted argument does not keep its element
order.  Concretely, the argument list with spans (3,10), (0,5) is left
reordered after the call. -/
theorem claim_C9_counterexample :
    purge_overlaps_arg_after SpanItem.start [⟨3, 10, 7⟩, ⟨0, 5, 5⟩]
      ≠ [⟨3, 10, 7⟩, ⟨0, 5, 5⟩] := by decide

/-- C9 amended: the only effect of `purge_overlaps` beyond its return
value is the in-place sort of the caller's argument by start offset —
after the call the argument holds exactly the input elements (a
permutation), in ascending start order. -/
theorem claim_C9_amended : ∀ {α : Type} (fs : α → Nat) (l : List α),
    List.Perm (purge_overlaps_arg_after fs l) l
    ∧ List.Pairwise (fun a b => fs a ≤ fs b) (purge_overlaps_arg_after fs l) :=
  fun fs l => ⟨sortByStart_perm fs l, sortByStart_sorted fs l⟩

/-- C2: a backreference placeholder (special marker hash, optional
at-index, default 1) compiles only when the occurrence counter for its
key is at least the index — otherwise `_build_group` fails with the
reference assertion — and on success it substitutes the engine
backreference to `key_(counter - index)`, registering no name and
leaving the counter unchanged; on the template of the spec's example
the registered names are `abg_0` and `abg_1` and the two backreferences
resolve to `abg_1` and `abg_0`. -/
theorem claim_C2 :
    (∀ (src : SrcTable) (st : BuildState) (pattern key : Str) (idxRaw : Option Str)
        (alts : List Str), srcGet src key = some alts →
      (GroupMatch.backrefIndex ⟨some ['#'], key, idxRaw⟩ ≤ ctrGet st.counter key →
        build_group ⟨some ['#'], key, idxRaw⟩ pattern src st =
          .ok (replaceFirst pattern (braced (GroupMatch.whole ⟨some ['#'], key, idxRaw⟩))
                (backrefStr (groupName key
                  (ctrGet st.counter key - GroupMatch.backrefIndex ⟨some ['#'], key, idxRaw⟩))),
               st))
      ∧ (ctrGet st.counter key < GroupMatch.backrefIndex ⟨some ['#'], key, idxRaw⟩ →
          build_group ⟨some ['#'], key, idxRaw⟩ pattern src st =
            .error (.backrefAssertion key)))
    ∧ build_pattern c2Src none 6 c2Template ⟨[], []⟩ =
        .ok (c2Compiled, ⟨[("abg".toList, 2)], ["abg_0".toList, "abg_1".toList]⟩) := by
  constructor
  · intro src st pattern key idxRaw alts hsrc
    constructor
    · intro hle
      unfold build_group
      dsimp only
      rw [hsrc]
      have hge : ctrGet st.counter key ≥ GroupMatch.backrefIndex ⟨some ['#'], key, idxRaw⟩ := hle
      simp [hge]
    · intro hlt
      unfold build_group
      dsimp only
      rw [hsrc]
      have hge : ¬ (ctrGet st.counter key ≥ GroupMatch.backrefIndex ⟨some ['#'], key, idxRaw⟩) := by
        omega
      simp [hge]
  · rfl

/-- Witness for C2: with the counter for `abg` at two, the placeholder
referencing two occurrences back compiles to a backreference and leaves
the state untouched. -/
theorem claim_C2_witness :
    build_group ⟨some ['#'], "abg".toList, some ['2']⟩
        "x \x7b\x7b#abg@2\x7d\x7d".toList c2Src
        ⟨[("abg".toList, 2)], ["abg_0".toList, "abg_1".toList]⟩ =
      .ok (replaceFirst "x \x7b\x7b#abg@2\x7d\x7d".toList
            (braced (GroupMatch.whole ⟨some ['#'], "abg".toList, some ['2']⟩))
            (backrefStr (groupName "abg".toList
              (ctrGet [("abg".toList, 2)] "abg".toList -
                GroupMatch.backrefIndex ⟨some ['#'], "abg".toList, some ['2']⟩))),
           ⟨[("abg".toList, 2)], ["abg_0".toList, "abg_1".toList]⟩) :=
  (claim_C2.1 c2Src ⟨[("abg".toList, 2)], ["abg_0".toList, "abg_1".toList]⟩
      "x \x7b\x7b#abg@2\x7d\x7d".toList "abg".toList (some ['2'])
      ["alpha".toList, "beta".toList, "gamma".toList] rfl).1 (by decide)

/-- C3: a special-marker placeholder other than the backreference
marker, whose key is present as a plain key in the source table,
substitutes the group built from the marker and the piped alternatives,
increments the occurrence counter for the key, and appends nothing to
the registered-group-name list (so the group exists in the pattern but
is invisible to the tree navigation, which only iterates registered
names); the spam/eggs template compiles with both special groups
present and no registered name. -/
theorem claim_C3 :
    (∀ (src : SrcTable) (st : BuildState) (pattern key sp : Str) (idxRaw : Option Str)
        (alts : List Str), sp ∈ skList → srcGet src key = some alts →
      build_group ⟨some sp, key, idxRaw⟩ pattern src st =
        .ok (replaceFirst pattern (braced (sp ++ key))
              ('(' :: (sp ++ pipeTogether alts ++ [')'])),
             ⟨ctrInc st.counter key, st.groups⟩))
    ∧ build_pattern c3Src none 4 c3Template ⟨[], []⟩ =
        .ok ("Here is some (?:spam) and some (?>eggs)".toList,
             ⟨[("spam".toList, 1), ("eggs".toList, 1)], []⟩) := by
  constructor
  · intro src st pattern key sp idxRaw alts hsp hsrc
    have hne : sp ≠ ['#'] := by
      intro h
      rw [h] at hsp
      revert hsp
      decide
    unfold build_group
    dsimp only
    rw [hsrc]
    simp [hne]
  · rfl

/-- Witness for C3: the non-capturing marker applied to `spam`. -/
theorem claim_C3_witness :
    build_group ⟨some "?:".toList, "spam".toList, none⟩
        "a \x7b\x7b?:spam\x7d\x7d b".toList c3Src ⟨[], []⟩ =
      .ok (replaceFirst "a \x7b\x7b?:spam\x7d\x7d b".toList
            (braced ("?:".toList ++ "spam".toList))
            ('(' :: ("?:".toList ++ pipeTogether ["spam".toList] ++ [')'])),
           ⟨ctrInc [] "spam".toList, []⟩) :=
  claim_C3.1 c3Src ⟨[], []⟩ "a \x7b\x7b?:spam\x7d\x7d b".toList "spam".toList
    "?:".toList none ["spam".toList] (by decide) rfl

theorem skRewrite_notfound (key pattern : Str) (src : SrcTable) (st : BuildState) :
    ∀ l : List Str, (∀ sk ∈ l, srcGet src (sk ++ key) = none) →
      skRewrite l key pattern src st = .error (.unknownTemplateGroup key) := by
  intro l
  induction l with
  | nil => intro _; rfl
  | cons sk rest ih =>
    intro h
    unfold skRewrite
    rw [h sk (List.mem_cons_self _ _)]
    exact ih (fun sk2 hm => h sk2 (List.mem_cons_of_mem _ hm))

theorem skRewrite_found (key pattern : Str) (src : SrcTable) (st : BuildState) :
    ∀ (pre : List Str) (sk : Str) (post : List Str) (alts : List Str),
      (∀ sk2 ∈ pre, srcGet src (sk2 ++ key) = none) →
      srcGet src (sk ++ key) = some alts →
      skRewrite (pre ++ sk :: post) key pattern src st =
        (if replaceAll pattern (braced key) ('(' :: (sk ++ pipeTogether alts ++ [')'])) ≠ pattern
         then .ok (replaceAll pattern (braced key) ('(' :: (sk ++ pipeTogether alts ++ [')'])), st)
         else .error (.couldNotBuild key)) := by
  intro pre
  induction pre with
  | nil =>
    intro sk post alts _ hfound
    rw [List.nil_append]
    unfold skRewrite
    rw [hfound]
  | cons sk2 rest ih =>
    intro sk post alts hpre hfound
    rw [List.cons_append]
    unfold skRewrite
    rw [hpre sk2 (List.mem_cons_self _ _)]
    exact ih sk post alts (fun x hm => hpre x (List.mem_cons_of_mem _ hm)) hfound

/-- C4: for a plain placeholder whose key is absent from the source
table, the compiler tries the marker-prefixed keys in the fixed source
order; the first one present rewrites every occurrence of the
placeholder with the same marker group and registers no name (the state
is returned untouched), and when none exists the
`UnknownTemplateGroup` error is raised; with source key
`?:number` and the template of the spec's example the compiled pattern
holds a non-capturing alternation and no registered name. -/
theorem claim_C4 :
    (∀ (src : SrcTable) (st : BuildState) (pattern key : Str) (idxRaw : Option Str),
        srcGet src key = none →
        (∀ sk ∈ skList, srcGet src (sk ++ key) = none) →
        build_group ⟨none, key, idxRaw⟩ pattern src st =
          .error (.unknownTemplateGroup key))
    ∧ (∀ (src : SrcTable) (st : BuildState) (pattern key : Str) (idxRaw : Option Str)
          (pre : List Str) (sk : Str) (post : List Str) (alts : List Str),
        srcGet src key = none →
        skList = pre ++ sk :: post →
        (∀ sk2 ∈ pre, srcGet src (sk2 ++ key) = none) →
        srcGet src (sk ++ key) = some alts →
        replaceAll pattern (braced key) ('(' :: (sk ++ pipeTogether alts ++ [')'])) ≠ pattern →
        build_group ⟨none, key, idxRaw⟩ pattern src st =
          .ok (replaceAll pattern (braced key) ('(' :: (sk ++ pipeTogether alts ++ [')'])), st))
    ∧ build_pattern c4Src none 3 c4Template ⟨[], []⟩ =
        .ok ("num: (?:\\d).".toList, ⟨[], []⟩) := by
  refine ⟨?_, ?_, rfl⟩
  · intro src st pattern key idxRaw hnone hall
    unfold build_group
    dsimp only
    rw [hnone]
    exact skRewrite_notfound key pattern src st skList hall
  · intro src st pattern key idxRaw pre sk post alts hnone hsplit hpre hfound hchange
    unfold build_group
    dsimp only
    rw [hnone, hsplit]
    rw [skRewrite_found key pattern src st pre sk post alts hpre hfound]
    rw [if_pos hchange]

/-- Witness for C4: the key `number` resolves through the prefixed key
and rewrites the placeholder. -/
theorem claim_C4_witness :
    build_group ⟨none, "number".toList, none⟩ c4Template c4Src ⟨[], []⟩ =
      .ok (replaceAll c4Template (braced "number".toList)
            ('(' :: ("?:".toList ++ pipeTogether ["\\d".toList] ++ [')'])), ⟨[], []⟩) :=
  (claim_C4.2.1 c4Src ⟨[], []⟩ c4Template "number".toList none
    [] "?:".toList
    ((["?>", "?!", "?=", "?<=", "?<!", "?a:", "?i:", "?m:", "?s:", "?x:", "?l:"] :
      List String).map String.toList)
    ["\\d".toList] rfl rfl (by intro sk2 h; cases h) rfl (by decide))

theorem skRewrite_state (key pattern : Str) (src : SrcTable) :
    ∀ (l : List Str) (st : BuildState),
      skRewrite l key pattern src st =
        match skRewrite l key pattern src ⟨[], []⟩ with
        | .ok (p, _) => .ok (p, st)
        | .error e => .error e := by
  intro l
  induction l with
  | nil => intro st; rfl
  | cons sk rest ih =>
    intro st
    unfold skRewrite
    cases hs : srcGet src (sk ++ key) with
    | none => exact ih st
    | some alts =>
      dsimp only
      by_cases hc :
          replaceAll pattern (braced key) ('(' :: (sk ++ pipeTogether alts ++ [')'])) ≠ pattern
      · rw [if_pos hc, if_pos hc]
      · rw [if_neg hc, if_neg hc]

theorem build_group_state (gm : GroupMatch) (pattern : Str) (src : SrcTable)
    (c : CounterT) (g : List Str) :
    build_group gm pattern src ⟨c, g⟩ =
      match build_group gm pattern src ⟨c, []⟩ with
      | .ok (p, st) => .ok (p, ⟨st.counter, g ++ st.groups⟩)
      | .error e => .error e := by
  unfold build_group
  dsimp only
  cases hs : srcGet src gm.key with
  | none =>
    cases hsp : gm.special with
    | some sp => rfl
    | none =>
      rw [skRewrite_state gm.key pattern src skList ⟨c, g⟩,
          skRewrite_state gm.key pattern src skList ⟨c, []⟩]
      cases skRewrite skList gm.key pattern src ⟨[], []⟩ with
      | ok pr => simp
      | error e => rfl
  | some alts =>
    cases hsp : gm.special with
    | none => simp
    | some sp =>
      by_cases hsh : sp = ['#']
      · subst hsh
        dsimp only [if_pos rfl]
        by_cases hge : ctrGet c gm.key ≥ gm.backrefIndex
        · simp [hge]
        · simp [hge]
      · simp [hsh]

theorem build_pattern_succ (src : SrcTable) (ws : Option Str) (fuel : Nat) (pattern : Str)
    (st : BuildState) :
    build_pattern src ws (fuel + 1) pattern st =
      match findGroupMatch pattern with
      | some gm =>
        match build_group gm pattern src st with
        | .ok (p2, st2) => build_pattern src ws fuel p2 st2
        | .error e => .error e
      | none =>
        .ok ((match ws with
          | some noise => wsSub noise pattern
          | none => pattern), st) := rfl

theorem build_pattern_state (src : SrcTable) (ws : Option Str) :
    ∀ (fuel : Nat) (pattern : Str) (c : CounterT) (g : List Str),
      build_pattern src ws fuel pattern ⟨c, g⟩ =
        match build_pattern src ws fuel pattern ⟨c, []⟩ with
        | .ok (p, st) => .ok (p, ⟨st.counter, g ++ st.groups⟩)
        | .error e => .error e := by
  intro fuel
  induction fuel with
  | zero => intro pattern c g; rfl
  | succ fuel ih =>
    intro pattern c g
    rw [build_pattern_succ, build_pattern_succ]
    cases hf : findGroupMatch pattern with
    | none => dsimp only; simp
    | some gm =>
      dsimp only
      rw [build_group_state gm pattern src c g]
      cases hb : build_group gm pattern src ⟨c, []⟩ with
      | error e => rfl
      | ok pr =>
        obtain ⟨p2, st2⟩ := pr
        dsimp only
        rw [ih p2 st2.counter (g ++ st2.groups), ih p2 st2.counter st2.groups]
        cases build_pattern src ws fuel p2 ⟨st2.counter, []⟩ with
        | error e => rfl
        | ok pr2 => simp

theorem build_key_length (compileOk : Str → Bool) (src : SrcTable) (ws : Option Str)
    (fuel : Nat) (key : Str) :
    ∀ (ts : List Str) (ag : AllGroups) (entries : List RegistryEntry) (ag2 : AllGroups),
      build_key compileOk src ws fuel key ts ag = .ok (entries, ag2) →
      entries.length = ts.length := by
  intro ts
  induction ts with
  | nil =>
    intro ag entries ag2 h
    unfold build_key at h
    cases h
    rfl
  | cons t rest ih =>
    intro ag entries ag2 h
    unfold build_key at h
    cases hb : build_pattern src ws fuel t ⟨[], agGet ag t⟩ with
    | error e => rw [hb] at h; cases h
    | ok pr =>
      obtain ⟨p, st⟩ := pr
      rw [hb] at h
      dsimp only at h
      by_cases hcp : compileOk p = true
      · rw [if_pos hcp] at h
        cases hr : build_key compileOk src ws fuel key rest (agSet ag t st.groups) with
        | error e => rw [hr] at h; cases h
        | ok pr2 =>
          obtain ⟨more, ag3⟩ := pr2
          rw [hr] at h
          cases h
          simp [ih _ _ _ hr]
      · rw [if_neg hcp] at h
        cases h

theorem build_key_ok_all (compileOk : Str → Bool) (src : SrcTable) (ws : Option Str)
    (fuel : Nat) (key : Str) :
    ∀ (ts : List Str) (ag : AllGroups) (entries : List RegistryEntry) (ag2 : AllGroups),
      build_key compileOk src ws fuel key ts ag = .ok (entries, ag2) →
      ∀ t ∈ ts, ∃ p st, build_pattern src ws fuel t ⟨[], []⟩ = .ok (p, st) ∧ compileOk p = true := by
  intro ts
  induction ts with
  | nil => intro ag entries ag2 _ t ht; cases ht
  | cons t0 rest ih =>
    intro ag entries ag2 h t ht
    unfold build_key at h
    cases hb : build_pattern src ws fuel t0 ⟨[], agGet ag t0⟩ with
    | error e => rw [hb] at h; cases h
    | ok pr =>
      obtain ⟨p, st⟩ := pr
      rw [hb] at h
      dsimp only at h
      by_cases hcp : compileOk p = true
      · rw [if_pos hcp] at h
        cases hr : build_key compileOk src ws fuel key rest (agSet ag t0 st.groups) with
        | error e => rw [hr] at h; cases h
        | ok pr2 =>
          obtain ⟨more, ag3⟩ := pr2
          rw [hr] at h
          rcases List.mem_cons.mp ht with rfl | hmem
          · -- t = t0: convert the run with initial groups to the empty-groups run
            rw [build_pattern_state src ws fuel t [] (agGet ag t)] at hb
            cases hb0 : build_pattern src ws fuel t ⟨[], []⟩ with
            | error e => rw [hb0] at hb; cases hb
            | ok pr0 =>
              obtain ⟨p0, st0⟩ := pr0
              rw [hb0] at hb
              simp only [Except.ok.injEq, Prod.mk.injEq] at hb
              obtain ⟨hp, hst⟩ := hb
              subst hp
              exact ⟨p0, st0, rfl, hcp⟩
          · exact ih _ _ _ hr t hmem
      · rw [if_neg hcp] at h
        cases h

theorem build_pattern_error_indep (src : SrcTable) (ws : Option Str) (fuel : Nat)
    (t : Str) (g0 : List Str) (e : BuildErr)
    (h : build_pattern src ws fuel t ⟨[], g0⟩ = .error e) :
    build_pattern src ws fuel t ⟨[], []⟩ = .error e := by
  rw [build_pattern_state src ws fuel t [] g0] at h
  cases hb : build_pattern src ws fuel t ⟨[], []⟩ with
  | error e2 =>
    rw [hb] at h
    dsimp only at h
    cases h
    rfl
  | ok pr =>
    obtain ⟨p0, st0⟩ := pr
    rw [hb] at h
    dsimp only at h
    cases h

theorem build_pattern_ok_indep (src : SrcTable) (ws : Option Str) (fuel : Nat)
    (t : Str) (g0 : List Str) (p : Str) (st : BuildState)
    (h : build_pattern src ws fuel t ⟨[], g0⟩ = .ok (p, st)) :
    ∃ st0, build_pattern src ws fuel t ⟨[], []⟩ = .ok (p, st0) := by
  rw [build_pattern_state src ws fuel t [] g0] at h
  cases hb : build_pattern src ws fuel t ⟨[], []⟩ with
  | error e =>
    rw [hb] at h
    dsimp only at h
    cases h
  | ok pr =>
    obtain ⟨p0, st0⟩ := pr
    rw [hb] at h
    dsimp only at h
    simp only [Except.ok.injEq, Prod.mk.injEq] at h
    exact ⟨st0, by rw [h.1]⟩

theorem build_key_error_exact (compileOk : Str → Bool) (src : SrcTable) (ws : Option Str)
    (fuel : Nat) (key : Str) :
    ∀ (ts : List Str) (ag : AllGroups) (e : FatalErr),
      build_key compileOk src ws fuel key ts ag = .error e →
      ∃ tpre t tpost, ts = tpre ++ t :: tpost ∧
        (∀ t2 ∈ tpre, ∃ p st,
          build_pattern src ws fuel t2 ⟨[], []⟩ = .ok (p, st) ∧ compileOk p = true) ∧
        ((∃ be, build_pattern src ws fuel t ⟨[], []⟩ = .error be ∧
            e = .patternBuild key (.fromExpand be))
         ∨ (∃ p st, build_pattern src ws fuel t ⟨[], []⟩ = .ok (p, st) ∧
            compileOk p = false ∧ e = .patternBuild key .fromCompile)) := by
  intro ts
  induction ts with
  | nil => intro ag e h; cases h
  | cons t0 rest ih =>
    intro ag e h
    unfold build_key at h
    cases hb : build_pattern src ws fuel t0 ⟨[], agGet ag t0⟩ with
    | error e2 =>
      rw [hb] at h
      cases h
      exact ⟨[], t0, rest, rfl, (by intro t2 h2; cases h2),
        Or.inl ⟨e2, build_pattern_error_indep src ws fuel t0 (agGet ag t0) e2 hb, rfl⟩⟩
    | ok pr =>
      obtain ⟨p, st⟩ := pr
      rw [hb] at h
      dsimp only at h
      by_cases hcp : compileOk p = true
      · rw [if_pos hcp] at h
        cases hr : build_key compileOk src ws fuel key rest (agSet ag t0 st.groups) with
        | error e3 =>
          rw [hr] at h
          cases h
          obtain ⟨tpre, t, tpost, hsplit, hpres, hcause⟩ := ih _ _ hr
          obtain ⟨st0, hb0⟩ := build_pattern_ok_indep src ws fuel t0 (agGet ag t0) p st hb
          refine ⟨t0 :: tpre, t, tpost, by rw [hsplit, List.cons_append], ?_, hcause⟩
          intro t2 h2
          rcases List.mem_cons.mp h2 with rfl | hm
          · exact ⟨p, st0, hb0, hcp⟩
          · exact hpres t2 hm
        | ok pr2 =>
          obtain ⟨more, ag3⟩ := pr2
          rw [hr] at h
          cases h
      · rw [if_neg hcp] at h
        cases h
        obtain ⟨st0, hb0⟩ := build_pattern_ok_indep src ws fuel t0 (agGet ag t0) p st hb
        have hfalse : compileOk p = false := by
          revert hcp
          cases compileOk p <;> simp
        exact ⟨[], t0, rest, rfl, (by intro t2 h2; cases h2),
          Or.inr ⟨p, st0, hb0, hfalse, rfl⟩⟩

theorem build_patterns_error_exact (compileOk : Str → Bool) (src : SrcTable)
    (ws : Option Str) (fuel : Nat) :
    ∀ (pats : List (Str × List Str)) (ag : AllGroups) (e : FatalErr),
      build_patterns compileOk src ws fuel pats ag = .error e →
      ∃ pre key ts post, pats = pre ++ (key, ts) :: post ∧
        (∀ kt ∈ pre, ∀ t ∈ kt.2, ∃ p st,
          build_pattern src ws fuel t ⟨[], []⟩ = .ok (p, st) ∧ compileOk p = true) ∧
        ∃ tpre t tpost, ts = tpre ++ t :: tpost ∧
          (∀ t2 ∈ tpre, ∃ p st,
            build_pattern src ws fuel t2 ⟨[], []⟩ = .ok (p, st) ∧ compileOk p = true) ∧
          ((∃ be, build_pattern src ws fuel t ⟨[], []⟩ = .error be ∧
              e = .patternBuild key (.fromExpand be))
           ∨ (∃ p st, build_pattern src ws fuel t ⟨[], []⟩ = .ok (p, st) ∧
              compileOk p = false ∧ e = .patternBuild key .fromCompile)) := by
  intro pats
  induction pats with
  | nil => intro ag e h; cases h
  | cons kt0 rest ih =>
    intro ag e h
    obtain ⟨key0, ts0⟩ := kt0
    unfold build_patterns at h
    cases hk : build_key compileOk src ws fuel key0 ts0 ag with
    | error e2 =>
      rw [hk] at h
      cases h
      obtain ⟨tpre, t, tpost, hsplit, hpres, hcause⟩ :=
        build_key_error_exact compileOk src ws fuel key0 ts0 ag _ hk
      exact ⟨[], key0, ts0, rest, rfl, (by intro kt h2; cases h2),
        tpre, t, tpost, hsplit, hpres, hcause⟩
    | ok pr =>
      obtain ⟨entries, agx⟩ := pr
      rw [hk] at h
      dsimp only at h
      cases hr : build_patterns compileOk src ws fuel rest agx with
      | error e3 =>
        rw [hr] at h
        cases h
        obtain ⟨pre, key, ts, post, hsplit, hpre, hrest⟩ := ih agx _ hr
        refine ⟨(key0, ts0) :: pre, key, ts, post, by rw [hsplit, List.cons_append],
          ?_, hrest⟩
        intro kt h2
        rcases List.mem_cons.mp h2 with rfl | hm
        · intro t ht
          exact build_key_ok_all compileOk src ws fuel key0 ts0 ag entries agx hk t ht
        · exact hpre kt hm
      | ok pr2 =>
        obtain ⟨more, ag3⟩ := pr2
        rw [hr] at h
        cases h

/-- C6: registry construction is fail-fast and all-or-nothing — a
successful result holds one entry per template of every pattern-type
and implies every template expanded and compiled (no partial registry
is ever produced) — and any failure returns a single pattern-build
error naming exactly the owning pattern-type, the one containing the
first failing template in declaration order (every earlier pattern-type
and every earlier template of this type expands and compiles), and
carrying that template's underlying cause: the expansion error when
`_build_pattern` raised, or the engine-compile failure otherwise. -/
theorem claim_C6 :
    (∀ (compileOk : Str → Bool) (src : SrcTable) (ws : Option Str) (fuel : Nat)
        (pats : List (Str × List Str)) (ag : AllGroups)
        (l : List RegistryEntry) (ag2 : AllGroups),
        build_patterns compileOk src ws fuel pats ag = .ok (l, ag2) →
        l.length = (pats.map (fun kt => kt.2.length)).sum)
    ∧ (∀ (compileOk : Str → Bool) (src : SrcTable) (ws : Option Str) (fuel : Nat)
        (pats : List (Str × List Str)) (ag : AllGroups)
        (l : List RegistryEntry) (ag2 : AllGroups),
        build_patterns compileOk src ws fuel pats ag = .ok (l, ag2) →
        ∀ kt ∈ pats, ∀ t ∈ kt.2, ∃ p st,
          build_pattern src ws fuel t ⟨[], []⟩ = .ok (p, st) ∧ compileOk p = true)
    ∧ (∀ (compileOk : Str → Bool) (src : SrcTable) (ws : Option Str) (fuel : Nat)
        (pats : List (Str × List Str)) (ag : AllGroups) (e : FatalErr),
        build_patterns compileOk src ws fuel pats ag = .error e →
        ∃ pre key ts post, pats = pre ++ (key, ts) :: post ∧
          (∀ kt ∈ pre, ∀ t ∈ kt.2, ∃ p st,
            build_pattern src ws fuel t ⟨[], []⟩ = .ok (p, st) ∧ compileOk p = true) ∧
          ∃ tpre t tpost, ts = tpre ++ t :: tpost ∧
            (∀ t2 ∈ tpre, ∃ p st,
              build_pattern src ws fuel t2 ⟨[], []⟩ = .ok (p, st) ∧ compileOk p = true) ∧
            ((∃ be, build_pattern src ws fuel t ⟨[], []⟩ = .error be ∧
                e = .patternBuild key (.fromExpand be))
             ∨ (∃ p st, build_pattern src ws fuel t ⟨[], []⟩ = .ok (p, st) ∧
                compileOk p = false ∧ e = .patternBuild key .fromCompile))) := by
  refine ⟨?_, ?_, ?_⟩
  · intro compileOk src ws fuel pats
    induction pats with
    | nil =>
      intro ag l ag2 h
      cases h
      rfl
    | cons kt rest ih =>
      intro ag l ag2 h
      obtain ⟨key, ts⟩ := kt
      unfold build_patterns at h
      cases hk : build_key compileOk src ws fuel key ts ag with
      | error e => rw [hk] at h; cases h
      | ok pr =>
        obtain ⟨entries, agx⟩ := pr
        rw [hk] at h
        dsimp only at h
        cases hr : build_patterns compileOk src ws fuel rest agx with
        | error e => rw [hr] at h; cases h
        | ok pr2 =>
          obtain ⟨more, ag3⟩ := pr2
          rw [hr] at h
          cases h
          rw [List.length_append, List.map_cons, List.sum_cons,
              build_key_length compileOk src ws fuel key ts ag entries agx hk,
              ih agx more _ hr]
  · intro compileOk src ws fuel pats
    induction pats with
    | nil => intro ag l ag2 _ kt hkt; cases hkt
    | cons kt0 rest ih =>
      intro ag l ag2 h kt hkt
      obtain ⟨key, ts⟩ := kt0
      unfold build_patterns at h
      cases hk : build_key compileOk src ws fuel key ts ag with
      | error e => rw [hk] at h; cases h
      | ok pr =>
        obtain ⟨entries, agx⟩ := pr
        rw [hk] at h
        dsimp only at h
        cases hr : build_patterns compileOk src ws fuel rest agx with
        | error e => rw [hr] at h; cases h
        | ok pr2 =>
          obtain ⟨more, ag3⟩ := pr2
          rw [hr] at h
          rcases List.mem_cons.mp hkt with rfl | hmem
          · intro t ht
            exact build_key_ok_all compileOk src ws fuel key ts ag entries agx hk t ht
          · exact ih agx more ag3 hr kt hmem
  · intro compileOk src ws fuel pats ag e h
    exact build_patterns_error_exact compileOk src ws fuel pats ag e h


/-- Witness for C6: building the single-template registry of the
backreference example succeeds with exactly one entry. -/
theorem claim_C6_witness :
    ([(("tests".toList : Str), c2Compiled, c2Template)] : List RegistryEntry).length =
      ([(("tests".toList : Str), [c2Template])].map
        (fun kt => kt.2.length)).sum :=
  claim_C6.1 (fun _ => true) c2Src none 6 [("tests".toList, [c2Template])] []
    [("tests".toList, c2Compiled, c2Template)]
    [(c2Template, ["abg_0".toList, "abg_1".toList])] rfl

theorem spanGroups_mem (em : EngineMatch) (name : Str) (rootNames : List Str)
    (lo hi : Nat) :
    ∀ (spans : List (Nat × Nat)) (j : Nat) (g : RGroup),
      g ∈ spanGroups em name rootNames lo hi j spans →
      lo ≤ g.gstart ∧ g.gstop ≤ hi ∧ g.name = name := by
  intro spans
  induction spans with
  | nil => intro j g h; cases h
  | cons sp rest ih =>
    intro j g h
    obtain ⟨s, e⟩ := sp
    unfold spanGroups at h
    rcases List.mem_append.mp h with h1 | h2
    · by_cases hc : lo ≤ s ∧ e ≤ hi
      · rw [if_pos hc] at h1
        rcases List.mem_singleton.mp h1 with rfl
        exact ⟨hc.1, hc.2, rfl⟩
      · rw [if_neg hc] at h1
        cases h1
    · exact ih (j + 1) g h2

theorem collectPlain_mem (em : EngineMatch) (rootNames : List Str) (lo hi : Nat) :
    ∀ (names : List Str) (g : RGroup),
      g ∈ collectPlain em rootNames lo hi names →
      lo ≤ g.gstart ∧ g.gstop ≤ hi := by
  intro names
  induction names with
  | nil => intro g h; cases h
  | cons name rest ih =>
    intro g h
    unfold collectPlain at h
    rcases List.mem_append.mp h with h1 | h2
    · cases hs : emSpans em name with
      | none => rw [hs] at h1; cases h1
      | some spans =>
        rw [hs] at h1
        have := spanGroups_mem em name rootNames lo hi spans 0 g h1
        exact ⟨this.1, this.2.1⟩
    · exact ih g h2

theorem collectIndexed_mem (em : EngineMatch) (rootNames : List Str) (lo hi : Nat)
    (q : Str) :
    ∀ (fuel i : Nat) (g : RGroup),
      g ∈ collectIndexed em rootNames lo hi q fuel i →
      lo ≤ g.gstart ∧ g.gstop ≤ hi := by
  intro fuel
  induction fuel with
  | zero => intro i g h; cases h
  | succ fuel ih =>
    intro i g h
    unfold collectIndexed at h
    cases hs : emSpans em (groupName q i) with
    | none => rw [hs] at h; cases h
    | some spans =>
      rw [hs] at h
      rcases List.mem_append.mp h with h1 | h2
      · have := spanGroups_mem em (groupName q i) rootNames lo hi spans 0 g h1
        exact ⟨this.1, this.2.1⟩
      · exact ih (i + 1) g h2

theorem sortByStart_mem {α : Type} (fs : α → Nat) (l : List α) (x : α) :
    x ∈ sortByStart fs l ↔ x ∈ l :=
  (sortByStart_perm fs l).mem_iff

theorem purge_overlaps_subset {α : Type} (fs fe fl : α → Nat) (l : List α) (x : α)
    (h : x ∈ purge_overlaps fs fe fl l) : x ∈ l :=
  (purge_overlaps_sound fs fe fl l).1 x h

theorem match_groups_bounds (m : RMatch) (query : Option Str) (root : Bool) (g : RGroup)
    (h : g ∈ m.groupsFn query root) :
    m.em.mstart ≤ g.gstart ∧ g.gstop ≤ m.em.mend := by
  unfold RMatch.groupsFn at h
  dsimp only at h
  have hcol : g ∈ (match query with
    | none => collectPlain m.em m.all_group_names m.em.mstart m.em.mend m.all_group_names
    | some q =>
      collectIndexed m.em m.all_group_names m.em.mstart m.em.mend q
        (m.em.named.length + 2) 0) := by
    cases root with
    | true =>
      rw [if_pos rfl] at h
      exact (sortByStart_mem _ _ g).mp (purge_overlaps_subset _ _ _ _ g h)
    | false =>
      rw [if_neg (by simp)] at h
      exact (sortByStart_mem _ _ g).mp h
  cases query with
  | none =>
    exact collectPlain_mem m.em m.all_group_names m.em.mstart m.em.mend m.all_group_names g hcol
  | some q =>
    exact collectIndexed_mem m.em m.all_group_names m.em.mstart m.em.mend q
      (m.em.named.length + 2) 0 g hcol

theorem isNextE_ok_true (all : List Str) (g1 g2 : Str)
    (h : isNextE all g1 g2 = .ok true) :
    ∃ i1 i2, firstIdx all g1 = some i1 ∧ firstIdx all g2 = some i2 ∧ i2 < i1 := by
  unfold isNextE at h
  cases h1 : firstIdx all g1 with
  | none => rw [h1] at h; cases h
  | some i1 =>
    cases h2 : firstIdx all g2 with
    | none => rw [h1, h2] at h; cases h
    | some i2 =>
      rw [h1, h2] at h
      refine ⟨i1, i2, rfl, rfl, ?_⟩
      have := congrArg (fun x => match x with | Except.ok b => b | _ => false) h
      simpa using this

theorem gContribution_mem (em : EngineMatch) (rootNames : List Str) (selfName : Str)
    (lo hi : Nat) (name : Str) (here : List RGroup)
    (hok : gContribution em rootNames selfName lo hi name = .ok here)
    (g : RGroup) (hg : g ∈ here) :
    lo ≤ g.gstart ∧ g.gstop ≤ hi ∧ g.name ≠ selfName ∧
      ∃ i1 i2, firstIdx rootNames g.name = some i1 ∧
        firstIdx rootNames selfName = some i2 ∧ i2 < i1 := by
  unfold gContribution at hok
  by_cases hself : name = selfName
  · rw [if_pos hself] at hok
    cases hok
    cases hg
  · rw [if_neg hself] at hok
    cases hs : emSpans em name with
    | none =>
      rw [hs] at hok
      cases hok
      cases hg
    | some spans =>
      rw [hs] at hok
      dsimp only at hok
      by_cases hsp : spans = []
      · rw [if_pos hsp] at hok
        cases hok
        cases hg
      · rw [if_neg hsp] at hok
        cases hnext : isNextE rootNames name selfName with
        | error e => rw [hnext] at hok; cases hok
        | ok b =>
          rw [hnext] at hok
          cases b with
          | false =>
            simp only [if_neg] at hok
            cases hok
            cases hg
          | true =>
            simp only [if_pos] at hok
            cases hok
            have hb := spanGroups_mem em name rootNames lo hi spans 0 g hg
            obtain ⟨i1, i2, hi1, hi2, hlt⟩ := isNextE_ok_true rootNames name selfName hnext
            refine ⟨hb.1, hb.2.1, ?_, i1, i2, ?_, hi2, hlt⟩
            · rw [hb.2.2]; exact hself
            · rw [hb.2.2]; exact hi1

theorem collectPlainG_mem (em : EngineMatch) (rootNames : List Str) (selfName : Str)
    (lo hi : Nat) :
    ∀ (names : List Str) (l : List RGroup),
      collectPlainG em rootNames selfName lo hi names = .ok l →
      ∀ g ∈ l, lo ≤ g.gstart ∧ g.gstop ≤ hi ∧ g.name ≠ selfName ∧
        ∃ i1 i2, firstIdx rootNames g.name = some i1 ∧
          firstIdx rootNames selfName = some i2 ∧ i2 < i1 := by
  intro names
  induction names with
  | nil =>
    intro l h g hg
    cases h
    cases hg
  | cons name rest ih =>
    intro l h g hg
    unfold collectPlainG at h
    cases hc : gContribution em rootNames selfName lo hi name with
    | error e => rw [hc] at h; cases h
    | ok here =>
      rw [hc] at h
      dsimp only at h
      cases hr : collectPlainG em rootNames selfName lo hi rest with
      | error e => rw [hr] at h; cases h
      | ok more =>
        rw [hr] at h
        cases h
        rcases List.mem_append.mp hg with h1 | h2
        · exact gContribution_mem em rootNames selfName lo hi name here hc g h1
        · exact ih more hr g h2

theorem collectIndexedG_mem (em : EngineMatch) (rootNames : List Str) (selfName : Str)
    (lo hi : Nat) (q : Str) :
    ∀ (fuel i : Nat) (l : List RGroup),
      collectIndexedG em rootNames selfName lo hi q fuel i = .ok l →
      ∀ g ∈ l, lo ≤ g.gstart ∧ g.gstop ≤ hi ∧ g.name ≠ selfName ∧
        ∃ i1 i2, firstIdx rootNames g.name = some i1 ∧
          firstIdx rootNames selfName = some i2 ∧ i2 < i1 := by
  intro fuel
  induction fuel with
  | zero =>
    intro i l h g hg
    cases h
    cases hg
  | succ fuel ih =>
    intro i l h g hg
    unfold collectIndexedG at h
    by_cases hself : groupName q i = selfName
    · rw [if_pos hself] at h
      exact ih (i + 1) l h g hg
    · rw [if_neg hself] at h
      cases hs : emSpans em (groupName q i) with
      | none =>
        rw [hs] at h
        cases h
        cases hg
      | some spans =>
        rw [hs] at h
        dsimp only at h
        by_cases hsp : spans = []
        · rw [if_pos hsp] at h
          dsimp only at h
          cases hr : collectIndexedG em rootNames selfName lo hi q fuel (i + 1) with
          | error e => rw [hr] at h; cases h
          | ok more =>
            rw [hr] at h
            cases h
            rcases List.mem_append.mp hg with h1 | h2
            · cases h1
            · exact ih (i + 1) more hr g h2
        · rw [if_neg hsp] at h
          cases hnext : isNextE rootNames (groupName q i) selfName with
          | error e => rw [hnext] at h; cases h
          | ok b =>
            rw [hnext] at h
            dsimp only at h
            cases hr : collectIndexedG em rootNames selfName lo hi q fuel (i + 1) with
            | error e => rw [hr] at h; cases h
            | ok more =>
              rw [hr] at h
              cases h
              rcases List.mem_append.mp hg with h1 | h2
              · cases b with
                | false => simp at h1
                | true =>
                  simp only [if_pos] at h1
                  have hb := spanGroups_mem em (groupName q i) rootNames lo hi spans 0 g h1
                  obtain ⟨i1, i2, hi1, hi2, hlt⟩ :=
                    isNextE_ok_true rootNames (groupName q i) selfName hnext
                  refine ⟨hb.1, hb.2.1, ?_, i1, i2, ?_, hi2, hlt⟩
                  · rw [hb.2.2]; exact hself
                  · rw [hb.2.2]; exact hi1
              · exact ih (i + 1) more hr g h2

theorem group_groups_bounds (g : RGroup) (query : Option Str) (root : Bool)
    (l : List RGroup) (hok : g.groupsFn query root = .ok l) (g2 : RGroup) (hg : g2 ∈ l) :
    g.gstart ≤ g2.gstart ∧ g2.gstop ≤ g.gstop ∧ g2.name ≠ g.name ∧
      ∃ i1 i2, firstIdx g.rootNames g2.name = some i1 ∧
        firstIdx g.rootNames g.name = some i2 ∧ i2 < i1 := by
  unfold RGroup.groupsFn at hok
  cases hcq : (match query with
    | none => collectPlainG g.em g.rootNames g.name g.gstart g.gstop g.rootNames
    | some q =>
      collectIndexedG g.em g.rootNames g.name g.gstart g.gstop q
        (g.em.named.length + 2) 0) with
  | error e => rw [hcq] at hok; cases hok
  | ok collected =>
    rw [hcq] at hok
    dsimp only at hok
    cases hok
    have hmem : g2 ∈ collected := by
      cases root with
      | true =>
        rw [if_pos rfl] at hg
        exact (sortByStart_mem _ _ g2).mp (purge_overlaps_subset _ _ _ _ g2 hg)
      | false =>
        rw [if_neg (by simp)] at hg
        exact (sortByStart_mem _ _ g2).mp hg
    cases query with
    | none =>
      exact collectPlainG_mem g.em g.rootNames g.name g.gstart g.gstop
        g.rootNames collected hcq g2 hmem
    | some q =>
      exact collectIndexedG_mem g.em g.rootNames g.name g.gstart g.gstop q
        (g.em.named.length + 2) 0 collected hcq g2 hmem

/-- C8: every Group produced by Match.groups has its span contained in
the owning Match's span, and every Group produced by a Group's groups
call (when that call returns without error) has its span contained in
the parent Group's span, a different name, and a registered name whose
first occurrence in the registered-group-name list lies strictly after
the parent's — for every match, query and enumerated repetition
index. -/
theorem claim_C8 :
    (∀ (m : RMatch) (query : Option Str) (root : Bool), ∀ g ∈ m.groupsFn query root,
        m.em.mstart ≤ g.gstart ∧ g.gstop ≤ m.em.mend)
    ∧ (∀ (g : RGroup) (query : Option Str) (root : Bool) (l : List RGroup),
        g.groupsFn query root = .ok l → ∀ g2 ∈ l,
          g.gstart ≤ g2.gstart ∧ g2.gstop ≤ g.gstop ∧ g2.name ≠ g.name ∧
            ∃ i1 i2, firstIdx g.rootNames g2.name = some i1 ∧
              firstIdx g.rootNames g.name = some i2 ∧ i2 < i1) :=
  ⟨fun m query root g hg => match_groups_bounds m query root g hg,
   fun g query root l hok g2 hg => group_groups_bounds g query root l hok g2 hg⟩

/-- Witness for C8 at the concrete two-group match: the outer group is
inside the match span, and the inner group is inside the outer
group. -/
theorem claim_C8_witness :
    (c8Match.em.mstart ≤ c8Group.gstart ∧ c8Group.gstop ≤ c8Match.em.mend)
    ∧ (c8Group.gstart ≤ 2 ∧ 5 ≤ c8Group.gstop) := by
  constructor
  · exact (claim_C8.1 c8Match none false c8Group (by decide))
  · have h := claim_C8.2 c8Group none false
      [⟨c8Em, "b_0".toList, ["a_0".toList, "b_0".toList], 0, 2, 5⟩] rfl
      ⟨c8Em, "b_0".toList, ["a_0".toList, "b_0".toList], 0, 2, 5⟩ (by decide)
    exact ⟨h.1, h.2.1⟩

theorem groups_nil_lookups (m : RMatch) (name : Str) (rep : Option Nat)
    (h : m.groupsFn (some name) false = []) :
    m.spanFn (some name) rep = .error (.noSuchGroup name) ∧
    m.startFn (some name) rep = .error (.noSuchGroup name) ∧
    m.endFn (some name) rep = .error (.noSuchGroup name) ∧
    m.groupFn name = none := by
  have hgf : m.groupFn name = none := by
    unfold RMatch.groupFn
    rw [h]
    rfl
  refine ⟨?_, ?_, ?_, hgf⟩
  · unfold RMatch.spanFn
    dsimp only
    rw [hgf]
  · unfold RMatch.startFn
    dsimp only
    rw [hgf]
  · unfold RMatch.endFn
    dsimp only
    rw [hgf]

theorem group_groups_nil_lookups (g : RGroup) (name : Str) (rep : Option Nat)
    (h : g.groupsFn (some name) false = .ok []) :
    g.spanFn (some name) rep = .error (.noSuchGroup name) ∧
    g.startFn (some name) rep = .error (.noSuchGroup name) ∧
    g.endFn (some name) rep = .error (.noSuchGroup name) ∧
    g.groupFn name = .ok none := by
  have hgf : g.groupFn name = .ok none := by
    unfold RGroup.groupFn
    rw [h]
    rfl
  refine ⟨?_, ?_, ?_, hgf⟩
  · unfold RGroup.spanFn
    dsimp only
    rw [hgf]
  · unfold RGroup.startFn
    dsimp only
    rw [hgf]
  · unfold RGroup.endFn
    dsimp only
    rw [hgf]

/-- C5 fails as stated for `group`: on a concrete match without a group
`foo`, `match.group("foo")` does not signal the no-such-group error —
it succeeds and returns absence (`None`) — even though `span` on the
same name does raise it. -/
theorem claim_C5_counterexample :
    c5Match.groupFn "foo".toList = none
    ∧ c5Match.spanFn (some "foo".toList) none = .error (.noSuchGroup "foo".toList) := by
  constructor
  · rfl
  · rfl

/-- C5 amended: for a Match or Group and a group name that resolves to
no captured group, `span`, `start` and `end` signal the no-such-group
error, while `group` returns absence (`None`) rather than raising. -/
theorem claim_C5_amended :
    (∀ (m : RMatch) (name : Str) (rep : Option Nat),
        m.groupsFn (some name) false = [] →
        m.spanFn (some name) rep = .error (.noSuchGroup name) ∧
        m.startFn (some name) rep = .error (.noSuchGroup name) ∧
        m.endFn (some name) rep = .error (.noSuchGroup name) ∧
        m.groupFn name = none)
    ∧ (∀ (g : RGroup) (name : Str) (rep : Option Nat),
        g.groupsFn (some name) false = .ok [] →
        g.spanFn (some name) rep = .error (.noSuchGroup name) ∧
        g.startFn (some name) rep = .error (.noSuchGroup name) ∧
        g.endFn (some name) rep = .error (.noSuchGroup name) ∧
        g.groupFn name = .ok none) :=
  ⟨groups_nil_lookups, group_groups_nil_lookups⟩

/-- Witness for the amended C5 on the concrete date match and the
absent key `foo`. -/
theorem claim_C5_amended_witness :
    c5Match.spanFn (some "foo".toList) none = .error (.noSuchGroup "foo".toList) ∧
    c5Match.startFn (some "foo".toList) none = .error (.noSuchGroup "foo".toList) ∧
    c5Match.endFn (some "foo".toList) none = .error (.noSuchGroup "foo".toList) ∧
    c5Match.groupFn "foo".toList = none :=
  claim_C5_amended.1 c5Match "foo".toList none rfl

theorem key_ne_groupName (k : Str) (i : Nat) : (k == groupName k i) = false := by
  apply beq_eq_false_iff_ne.mpr
  intro h
  have hlen := congrArg List.length h
  simp only [groupName, List.length_append, List.length_cons] at hlen
  omega

theorem c10Em_no_indexed (i : Nat) :
    emSpans c10Em (groupName "key_0".toList i) = none := by
  unfold emSpans c10Em
  simp [List.find?, key_ne_groupName]

theorem collectIndexedG_allnone (em : EngineMatch) (rootNames : List Str)
    (selfName : Str) (lo hi : Nat) (q : Str)
    (h : ∀ i, emSpans em (groupName q i) = none) :
    ∀ (fuel i : Nat), collectIndexedG em rootNames selfName lo hi q fuel i = .ok [] := by
  intro fuel
  induction fuel with
  | zero => intro i; rfl
  | succ fuel ih =>
    intro i
    unfold collectIndexedG
    by_cases hs : groupName q i = selfName
    · rw [if_pos hs]
      exact ih (i + 1)
    · rw [if_neg hs, h i]

theorem group_query_allnone (g : RGroup) (q : Str)
    (h : ∀ i, emSpans g.em (groupName q i) = none) :
    g.groupsFn (some q) false = .ok [] := by
  unfold RGroup.groupsFn
  dsimp only
  rw [collectIndexedG_allnone g.em g.rootNames g.name g.gstart g.gstop q h
    (g.em.named.length + 2) 0]
  rfl

/-- C10: on a Match or a Group receiver, a query only ever resolves the
derived names `q_0`, `q_1`, ... and never the name `q` itself: on a
Match, whenever the engine has no group `q_0` the query yields the
empty list, `group` yields absence and `span` signals no-such-group; on
a Group, whenever no derived name `q_i` exists in the engine match the
query yields the empty list, `group` yields absence and `span` signals
no-such-group — in particular for the full registered name `key_0`
(present in the registered-name list) both on the match whose engine
captured `key_0` and on the group `key_0` itself. -/
theorem claim_C10 :
    (∀ (m : RMatch) (q : Str),
        emSpans m.em (groupName q 0) = none →
        m.groupsFn (some q) false = [] ∧ m.groupFn q = none ∧
          ∀ rep, m.spanFn (some q) rep = .error (.noSuchGroup q))
    ∧ (∀ (g : RGroup) (q : Str),
        (∀ i, emSpans g.em (groupName q i) = none) →
        g.groupsFn (some q) false = .ok [] ∧ g.groupFn q = .ok none ∧
          ∀ rep, g.spanFn (some q) rep = .error (.noSuchGroup q))
    ∧ (c10Match.groupsFn (some "key_0".toList) false = []
       ∧ c10Match.groupFn "key_0".toList = none
       ∧ c10Match.spanFn (some "key_0".toList) none =
           .error (.noSuchGroup "key_0".toList)
       ∧ "key_0".toList ∈ c10Match.all_group_names)
    ∧ (c10Group.groupsFn (some "key_0".toList) false = .ok []
       ∧ c10Group.groupFn "key_0".toList = .ok none
       ∧ c10Group.spanFn (some "key_0".toList) none =
           .error (.noSuchGroup "key_0".toList)
       ∧ c10Group.name ∈ c10Group.rootNames) := by
  refine ⟨?_, ?_, ?_, ?_⟩
  · intro m q h
    have hg : m.groupsFn (some q) false = [] := by
      unfold RMatch.groupsFn collectIndexed
      rw [h]
      rfl
    exact ⟨hg, (groups_nil_lookups m q none hg).2.2.2,
      fun rep => (groups_nil_lookups m q rep hg).1⟩
  · intro g q h
    have hg := group_query_allnone g q h
    exact ⟨hg, (group_groups_nil_lookups g q none hg).2.2.2,
      fun rep => (group_groups_nil_lookups g q rep hg).1⟩
  · refine ⟨rfl, rfl, rfl, by decide⟩
  · refine ⟨rfl, rfl, rfl, by decide⟩

/-- Witness for C10 on the concrete match and the concrete group, both
holding only the name `key_0`. -/
theorem claim_C10_witness :
    (c10Match.groupsFn (some "key_0".toList) false = [] ∧
     c10Match.groupFn "key_0".toList = none ∧
     ∀ rep, c10Match.spanFn (some "key_0".toList) rep =
       .error (.noSuchGroup "key_0".toList))
    ∧ (c10Group.groupsFn (some "key_0".toList) false = .ok [] ∧
       c10Group.groupFn "key_0".toList = .ok none ∧
       ∀ rep, c10Group.spanFn (some "key_0".toList) rep =
         .error (.noSuchGroup "key_0".toList)) :=
  ⟨claim_C10.1 c10Match "key_0".toList rfl,
   claim_C10.2.1 c10Group "key_0".toList (fun i => c10Em_no_indexed i)⟩

end Replus
